import Mathlib

/-!
Verification development for the indexify index-management and retrieval
pipeline.  The HTTP handlers are embedded from `src/src/server.rs`; the
orchestration components they call (`IndexManager`, `EmbeddingRouter`,
`TextSplitter`, the vector-store backend) are not part of the visible
sources, so they are modelled from the specification (each such definition
says so in its doc comment).  Vectors are embedded as lists of rationals,
HTTP status codes as the plain numerals the handlers return
(200 OK, 400 BAD_REQUEST, 417 EXPECTATION_FAILED, 500 INTERNAL_SERVER_ERROR).
-/

namespace Indexify

/-- Distance metric kinds: `IndexMetric` / `MetricKind` in `src/src/server.rs`
(the handler's one-to-one renaming between the two enums is collapsed). -/
inductive MetricKind where
  | Dot
  | Cosine
  | Euclidean
deriving DecidableEq, Repr

/-- Splitter kinds: `ApiTextSplitterKind` in `src/src/server.rs` (the
round-trip into the index module's `TextSplitterKind` is collapsed; the
variant payload is kept). -/
inductive TextSplitterKind where
  | noSplit
  | newLine
  | regex (pattern : String)
deriving DecidableEq, Repr

/-- A caller-supplied document (`Document` in `src/src/server.rs`); the
metadata map is embedded as an association list. -/
structure Document where
  text : String
  metadata : List (String × String)
deriving DecidableEq, Repr

/-- Modelled from the spec: a `VectorRecord` stored by a vector-store
backend — dedup key, vector of length `vector_dim`, metadata, and the
original fragment text. The dedup key is kept as the list of hashed-over
values (a perfect hash). -/
structure VectorRecord where
  dedup_key : List String
  vector : List ℚ
  metadata : List (String × String)
  text : String
deriving DecidableEq, Repr

/-- Modelled from the spec: the dedup key of a fragment — derived from the
configured dedup fields' values (in configured field order), or from the
fragment text when no fields are configured. -/
def dedupKey (unique_params : Option (List String))
    (metadata : List (String × String)) (text : String) : List String :=
  match unique_params with
  | none => [text]
  | some fields => fields.map (fun f => ((metadata.lookup f).getD ""))

/-- Modelled from the spec: an embedding backend capability — a per-text
embedding function, plus an optional wholesale provider failure. -/
structure EmbeddingBackend where
  embed : String → List ℚ
  fail : Option String

/-- Modelled from the spec: the `EmbeddingRouter` — configured models in
configuration order, each with its declared dimensionality and backend. -/
structure EmbeddingRouter where
  models : List (String × Nat × EmbeddingBackend)

/-- `EmbeddingRouter::list_models`: configured model names in configuration
order. -/
def EmbeddingRouter.list_models (r : EmbeddingRouter) : List String :=
  r.models.map (fun p => p.1)

/-- `EmbeddingRouter::dimensions`: declared dimensionality of a configured
model; fails with `UnknownModel` otherwise. -/
def EmbeddingRouter.dimensions (r : EmbeddingRouter) (name : String) :
    Except String Nat :=
  match r.models.find? (fun p => p.1 = name) with
  | some p => .ok p.2.1
  | none => .error "UnknownModel"

/-- `EmbeddingRouter::generate_embeddings`: batches the texts to the named
model's backend; all-or-nothing — on success one vector per input text in
input order, on provider failure no vectors at all. -/
def EmbeddingRouter.generate_embeddings (r : EmbeddingRouter)
    (texts : List String) (name : String) : Except String (List (List ℚ)) :=
  match r.models.find? (fun p => p.1 = name) with
  | none => .error "UnknownModel"
  | some p =>
    match p.2.2.fail with
    | some msg => .error ("BackendError: " ++ msg)
    | none => .ok (texts.map p.2.2.embed)

/-- Fuel-driven splitting of a character list on a literal separator: each
step consumes at least one character, so `fuel = length` suffices; kept
structural so the kernel can evaluate it. -/
def splitGo (sep : List Char) : Nat → List Char → List Char → List (List Char)
  | 0, _, cur => [cur.reverse]
  | _ + 1, [], cur => [cur.reverse]
  | fuel + 1, c :: rest, cur =>
    if sep.isPrefixOf (c :: rest) then
      cur.reverse :: splitGo sep fuel (rest.drop (sep.length - 1)) []
    else
      splitGo sep fuel rest (c :: cur)

/-- Split a string on a literal separator (empty separator leaves the text
whole), mirroring `str::split` on a literal boundary: the separator is not
included in the output. -/
def splitOnStr (sep text : String) : List String :=
  match sep.data with
  | [] => [text]
  | s => (splitGo s text.data.length text.data []).map (fun cs => ⟨cs⟩)

/-- Modelled from the spec: the `TextSplitter` pure function — `None`
returns the whole text as one fragment; `NewLine` splits on line boundaries
and drops empty lines; `Regex` splits on matches of the pattern (modelled
for literal patterns), the boundary not included in the output. -/
def splitText : TextSplitterKind → String → List String
  | .noSplit, text => [text]
  | .newLine, text => (splitOnStr "\n" text).filter (fun s => s ≠ "")
  | .regex p, text => splitOnStr p text

/-- The dedup keys of a store, in store order. -/
def keysOf (s : List VectorRecord) : List (List String) :=
  s.map (fun r => r.dedup_key)

/-- Replace a record by `r` when the keys agree, leave it alone otherwise. -/
def replaceRec (r x : VectorRecord) : VectorRecord :=
  if x.dedup_key = r.dedup_key then r else x

/-- Modelled from the spec: the backend's `upsert` — keyed by `dedup_key`;
an existing record under that key is replaced in place, otherwise the
record is appended. -/
def upsert (s : List VectorRecord) (r : VectorRecord) : List VectorRecord :=
  if r.dedup_key ∈ keysOf s then s.map (replaceRec r) else s ++ [r]

/-- Number of records in a store carrying a given dedup key. -/
def countKey (s : List VectorRecord) (k : List String) : Nat :=
  (keysOf s).count k

/-- A store is key-deduplicated when no dedup key occurs twice. -/
def NodupKeys (s : List VectorRecord) : Prop :=
  (keysOf s).Nodup

instance (s : List VectorRecord) : Decidable (NodupKeys s) :=
  inferInstanceAs (Decidable (List.Nodup _))

/-- An index's configuration (`IndexConfig` / `CreateIndexParams` fields,
plus the model and splitter the handler passes alongside). -/
structure IndexConfig where
  name : String
  vector_dim : Nat
  metric : MetricKind
  embedding_model : String
  splitter : TextSplitterKind
  unique_params : Option (List String)
deriving DecidableEq, Repr

/-- Modelled from the spec: a live index — its immutable configuration plus
the vector-store backend's records. -/
structure Index where
  config : IndexConfig
  records : List VectorRecord
deriving DecidableEq, Repr

/-- The fragments an ingestion call produces: each document's text split by
the index's configured splitter, every fragment inheriting the document's
metadata, in document order. -/
def Index.fragmentsOf (idx : Index) (docs : List Document) :
    List (String × List (String × String)) :=
  docs.flatMap (fun d => (splitText idx.config.splitter d.text).map (fun t => (t, d.metadata)))

/-- Build the `VectorRecord` for a fragment and its embedding vector. -/
def Index.recordOf (idx : Index) (fv : (String × List (String × String)) × List ℚ) :
    VectorRecord :=
  { dedup_key := dedupKey idx.config.unique_params fv.1.2 fv.1.1
    vector := fv.2
    metadata := fv.1.2
    text := fv.1.1 }

/-- Modelled from the spec: `IndexManager`/index `add_texts` — split each
document, compute each fragment's dedup key, batch all fragment texts
through the router in order, defensively check every returned vector's
length against the declared dimension, then upsert each record keyed by
its dedup key.  Embedding failure or a dimension mismatch aborts the whole
call with no partial writes. -/
def Index.add_texts (idx : Index) (router : EmbeddingRouter)
    (docs : List Document) : Except String Index :=
  match router.generate_embeddings ((idx.fragmentsOf docs).map (fun f => f.1))
      idx.config.embedding_model with
  | .error e => .error ("EmbeddingFailure: " ++ e)
  | .ok vecs =>
    if vecs.all (fun v => v.length = idx.config.vector_dim) then
      .ok { idx with
        records := (((idx.fragmentsOf docs).zip vecs).map idx.recordOf).foldl upsert idx.records }
    else .error "DimensionMismatch"

/-- Inner product of two vectors (zipped; extra coordinates ignored). -/
def dotQ (a b : List ℚ) : ℚ :=
  ((a.zip b).map (fun p => p.1 * p.2)).sum

/-- Squared euclidean distance of two vectors. -/
def distSq (a b : List ℚ) : ℚ :=
  ((a.zip b).map (fun p => (p.1 - p.2) * (p.1 - p.2))).sum

/-- Sign-preserving squared cosine similarity: a strictly monotone image of
the cosine similarity of `a` and `q`, kept inside the rationals (zero when
either vector has zero norm, where the cosine is undefined). -/
def cosQ (a q : List ℚ) : ℚ :=
  let s := dotQ a q
  let d := dotQ a a * dotQ q q
  if d = 0 then 0 else (if s < 0 then -(s * s) else s * s) / d

/-- Ranking score of a stored vector against a query vector: higher is
better for every metric (euclidean uses the negated squared distance, so
ascending distance is descending score). -/
def rankScore : MetricKind → List ℚ → List ℚ → ℚ
  | .Dot, a, q => dotQ a q
  | .Cosine, a, q => cosQ a q
  | .Euclidean, a, q => -(distSq a q)

/-- Record `a` ranks at least as well as record `b` for the metric: not
farther for euclidean, not lower-scoring for dot and cosine. -/
def rankLE (m : MetricKind) (qv : List ℚ) (a b : VectorRecord) : Prop :=
  match m with
  | .Euclidean => distSq a.vector qv ≤ distSq b.vector qv
  | .Dot => dotQ b.vector qv ≤ dotQ a.vector qv
  | .Cosine => cosQ b.vector qv ≤ cosQ a.vector qv

instance (m : MetricKind) (qv : List ℚ) : DecidableRel (rankLE m qv) := by
  intro a b
  cases m <;> exact inferInstanceAs (Decidable (_ ≤ _))

/-- Modelled from the spec: `search` — embed the query text as a single-item
batch through the index's model, rank all stored records best-first under
the index's metric, and return the top `k` (fewer when the store holds
fewer). -/
def Index.search (idx : Index) (router : EmbeddingRouter)
    (queryText : String) (k : Nat) : Except String (List VectorRecord) :=
  match router.generate_embeddings [queryText] idx.config.embedding_model with
  | .error e => .error ("EmbeddingFailure: " ++ e)
  | .ok qvecs =>
    .ok ((idx.records.insertionSort (rankLE idx.config.metric (qvecs.headD []))).take k)

/-- Modelled from the spec: the `IndexManager`'s persisted state — the
committed index records. -/
structure IndexManager where
  indexes : List Index

/-- `IndexManager::load`: the live index of that name, or `none` as an
explicit not-found signal. -/
def IndexManager.load (mgr : IndexManager) (name : String) : Option Index :=
  mgr.indexes.find? (fun i => i.config.name = name)

/-- Modelled from the spec: `IndexManager::create_index` — an atomic
check-then-insert keyed by name; a second creator of the same name fails
with `IndexAlreadyExists` and commits nothing. -/
def IndexManager.create_index (mgr : IndexManager) (cfg : IndexConfig) :
    Except String IndexManager :=
  if (mgr.load cfg.name).isSome then .error "IndexAlreadyExists"
  else .ok { indexes := mgr.indexes ++ [{ config := cfg, records := [] }] }

/-- Replace the stored index of the same name by its updated value. -/
def IndexManager.store (mgr : IndexManager) (idx : Index) : IndexManager :=
  { indexes := mgr.indexes.map (fun i => if i.config.name = idx.config.name then idx else i) }

/-- Request payload of `/index/create` (`IndexCreateRequest` in
`src/src/server.rs`). -/
structure IndexCreateRequest where
  name : String
  embedding_model : String
  metric : MetricKind
  text_splitter : TextSplitterKind
  hash_on : Option (List String)

/-- Response payload of `/index/create`. -/
structure IndexCreateResponse where
  errors : List String
deriving DecidableEq, Repr

/-- Request payload of `/index/add`. -/
structure AddTextsRequest where
  index : String
  documents : List Document

/-- Response payload of `/index/add`. -/
structure IndexAdditionResponse where
  errors : List String
deriving DecidableEq, Repr

/-- Request payload of `/index/search`. -/
structure SearchRequest where
  index : String
  query : String
  k : Nat

/-- One search hit as returned to the caller. -/
structure DocumentFragment where
  text : String
  metadata : List (String × String)
deriving DecidableEq, Repr

/-- Response payload of `/index/search`. -/
structure IndexSearchResponse where
  results : List DocumentFragment
  errors : List String
deriving DecidableEq, Repr

/-- An embedding model catalog entry (`EmbeddingModel` in `src/src/server.rs`). -/
structure EmbeddingModel where
  name : String
  dimensions : Nat
deriving DecidableEq, Repr

/-- Response payload of `/embeddings/models`. -/
structure ListEmbeddingModelsResponse where
  models : List EmbeddingModel
deriving DecidableEq, Repr

/-- Request payload of `/embeddings/generate`. -/
structure GenerateEmbeddingRequest where
  inputs : List String
  model : String

/-- Response payload of `/embeddings/generate`. -/
structure GenerateEmbeddingResponse where
  embeddings : Option (List (List ℚ))
  error : Option String
deriving DecidableEq, Repr

/-- The shared state of the index endpoints: the optional `IndexManager`
and the `EmbeddingRouter` (`IndexEndpointState` in `src/src/server.rs`).
Handlers return the updated manager next to the response, making the
committed state explicit. -/
def IndexEndpointState : Type := Option IndexManager × EmbeddingRouter

/-- The `index_create` handler (`src/src/server.rs:251-298`): reject an
unconfigured server with 400; resolve the model's dimensions, mapping a
failure to 400 with the error's message; build the creation parameters
with the resolved dimension and call `create_index`, mapping its failure
to 500; answer 200 with no errors on success. -/
def index_create (st : IndexEndpointState) (payload : IndexCreateRequest) :
    (Nat × IndexCreateResponse) × Option IndexManager :=
  match st.1 with
  | none => ((400, { errors := ["server is not configured to have indexes"] }), st.1)
  | some mgr =>
    match st.2.dimensions payload.embedding_model with
    | .error err => ((400, { errors := [err] }), some mgr)
    | .ok dim =>
      match mgr.create_index
          { name := payload.name
            vector_dim := dim
            metric := payload.metric
            embedding_model := payload.embedding_model
            splitter := payload.text_splitter
            unique_params := payload.hash_on } with
      | .error err => ((500, { errors := [err] }), some mgr)
      | .ok mgr' => ((200, { errors := [] }), some mgr')

/-- The `add_texts` handler (`src/src/server.rs:301-351`): reject an
unconfigured server with 400; a missing index with 400 and
"index does not exist"; an ingestion failure with 400 carrying the
failure's message; answer 200 with no errors on success.  (The handler's
wrapping of each document into a one-element `Text` batch is collapsed;
the infallible in-memory `load` has no error branch, so the source's
500-on-load-error arm is unreachable here.) -/
def add_texts (st : IndexEndpointState) (payload : AddTextsRequest) :
    (Nat × IndexAdditionResponse) × Option IndexManager :=
  match st.1 with
  | none => ((400, { errors := ["server is not configured to have indexes"] }), st.1)
  | some mgr =>
    match mgr.load payload.index with
    | none => ((400, { errors := ["index does not exist"] }), some mgr)
    | some idx =>
      match idx.add_texts st.2 payload.documents with
      | .error err => ((400, { errors := [err] }), some mgr)
      | .ok idx' => ((200, { errors := [] }), some (mgr.store idx'))

/-- The `index_search` handler (`src/src/server.rs:375-435`): reject an
unconfigured server with 400; a missing index with 400 and
"index does not exist"; a search failure with 500 carrying the failure's
message; otherwise 200 with the hits mapped to `(text, metadata)`
fragments in rank order.  (Read-only: no state is returned.) -/
def index_search (st : IndexEndpointState) (q : SearchRequest) :
    Nat × IndexSearchResponse :=
  match st.1 with
  | none => (400, { results := [], errors := ["server is not configured to have indexes"] })
  | some mgr =>
    match mgr.load q.index with
    | none => (400, { results := [], errors := ["index does not exist"] })
    | some idx =>
      match idx.search st.2 q.query q.k with
      | .error err => (500, { results := [], errors := [err] })
      | .ok results =>
        (200, { results := results.map (fun r => { text := r.text, metadata := r.metadata })
                errors := [] })

/-- The `list_embedding_models` handler (`src/src/server.rs:449-466`),
generic over the router interface it consumes: for each listed model name
look up its dimensions and push a catalog entry when the lookup succeeds —
a failing lookup pushes nothing, and the response carries no error
channel. -/
def list_embedding_models (names : List String)
    (dims : String → Except String Nat) : ListEmbeddingModelsResponse :=
  { models := names.foldl
      (fun acc m =>
        match dims m with
        | .ok d => acc ++ [{ name := m, dimensions := d }]
        | .error _ => acc) [] }

/-- The `generate_embedding` handler (`src/src/server.rs:482-507`): answer
417 with the error message and no embeddings on failure, 200 with the
embeddings and no error on success. -/
def generate_embedding (router : EmbeddingRouter)
    (payload : GenerateEmbeddingRequest) : Nat × GenerateEmbeddingResponse :=
  match router.generate_embeddings payload.inputs payload.model with
  | .error e => (417, { embeddings := none, error := some e })
  | .ok vs => (200, { embeddings := some vs, error := none })

/-- A store pins a record when the record's key is present and the record
is the only one stored under that key. -/
def Pins (s : List VectorRecord) (r : VectorRecord) : Prop :=
  r.dedup_key ∈ keysOf s ∧ ∀ z ∈ s, z.dedup_key = r.dedup_key → z = r

/-- A healthy one-dimensional embedding backend for concrete runs. -/
def demoBackend : EmbeddingBackend := { embed := fun _ => [1], fail := none }

/-- A backend whose provider is down, for concrete runs. -/
def downBackend : EmbeddingBackend := { embed := fun _ => [1], fail := some "backend down" }

/-- A router configured with the single healthy model `model-a`. -/
def demoRouter : EmbeddingRouter := { models := [("model-a", 1, demoBackend)] }

/-- A router configured with `model-a` backed by the failing provider. -/
def downRouter : EmbeddingRouter := { models := [("model-a", 1, downBackend)] }

/-- A concrete index configuration over `model-a`. -/
def demoConfig : IndexConfig :=
  { name := "docs"
    vector_dim := 1
    metric := .Cosine
    embedding_model := "model-a"
    splitter := .noSplit
    unique_params := none }

/-- The empty index of that configuration. -/
def demoIndex : Index := { config := demoConfig, records := [] }

/-- A one-document ingestion batch. -/
def demoDocs : List Document := [{ text := "hello", metadata := [("src", "t1")] }]

/-- The demo index after ingesting `demoDocs` through `demoRouter`. -/
def demoIndexAfter : Index :=
  { config := demoConfig
    records := [{ dedup_key := ["hello"], vector := [1], metadata := [("src", "t1")], text := "hello" }] }

/-- A manager holding just the demo index. -/
def demoManager : IndexManager := { indexes := [demoIndex] }

/-- The empty manager. -/
def emptyManager : IndexManager := { indexes := [] }

/-- A creation request matching `demoConfig`. -/
def demoCreateReq : IndexCreateRequest :=
  { name := "docs"
    embedding_model := "model-a"
    metric := .Cosine
    text_splitter := .noSplit
    hash_on := none }

/-- Replacement preserves a record's dedup key. -/
theorem keys_replaceRec (r x : VectorRecord) :
    (replaceRec r x).dedup_key = x.dedup_key := by
  unfold replaceRec
  by_cases h : x.dedup_key = r.dedup_key
  · simp [h]
  · simp [h]

/-- Replacing under a key does not change the store's key sequence. -/
theorem keysOf_map_replace (r : VectorRecord) (s : List VectorRecord) :
    keysOf (s.map (replaceRec r)) = keysOf s := by
  unfold keysOf
  rw [List.map_map]
  exact List.map_congr_left (fun x _ => keys_replaceRec r x)

/-- Upserting keeps the key sequence, appending the new key only when it
was absent. -/
theorem keysOf_upsert (s : List VectorRecord) (r : VectorRecord) :
    keysOf (upsert s r) =
      if r.dedup_key ∈ keysOf s then keysOf s else keysOf s ++ [r.dedup_key] := by
  by_cases h : r.dedup_key ∈ keysOf s
  · rw [upsert, if_pos h, if_pos h, keysOf_map_replace]
  · rw [upsert, if_neg h, if_neg h, keysOf, List.map_append]
    rfl

/-- After upserting a record its key is present. -/
theorem mem_keys_upsert_self (s : List VectorRecord) (r : VectorRecord) :
    r.dedup_key ∈ keysOf (upsert s r) := by
  rw [keysOf_upsert]
  by_cases h : r.dedup_key ∈ keysOf s
  · rwa [if_pos h]
  · rw [if_neg h]
    exact List.mem_append_right _ (List.mem_singleton_self _)

/-- Upserting never removes a present key. -/
theorem mem_keys_upsert_mono (s : List VectorRecord) (r : VectorRecord)
    {k : List String} (h : k ∈ keysOf s) : k ∈ keysOf (upsert s r) := by
  rw [keysOf_upsert]
  split
  · exact h
  · exact List.mem_append_left _ h

/-- A fold of upserts never removes a present key. -/
theorem mem_keys_foldl_mono :
    ∀ (rs s : List VectorRecord) {k : List String},
      k ∈ keysOf s → k ∈ keysOf (rs.foldl upsert s) := by
  intro rs
  induction rs with
  | nil => intro s k h; exact h
  | cons r rs ih => intro s k h; exact ih (upsert s r) (mem_keys_upsert_mono s r h)

/-- Every upserted record's key is present after the fold. -/
theorem mem_keys_foldl_of_mem :
    ∀ (rs s : List VectorRecord) {r : VectorRecord},
      r ∈ rs → r.dedup_key ∈ keysOf (rs.foldl upsert s) := by
  intro rs
  induction rs with
  | nil => intro s r h; cases h
  | cons y ys ih =>
    intro s r h
    rcases List.mem_cons.mp h with h | h
    · subst h
      exact mem_keys_foldl_mono ys (upsert s r) (mem_keys_upsert_self s r)
    · exact ih (upsert s y) h

/-- Upserting preserves key-dedupedness. -/
theorem nodupKeys_upsert (s : List VectorRecord) (r : VectorRecord)
    (h : NodupKeys s) : NodupKeys (upsert s r) := by
  unfold NodupKeys at h ⊢
  rw [keysOf_upsert]
  by_cases hm : r.dedup_key ∈ keysOf s
  · rwa [if_pos hm]
  · rw [if_neg hm, List.nodup_append]
    refine ⟨h, List.nodup_singleton _, ?_⟩
    intro a ha hb
    rw [List.mem_singleton] at hb
    subst hb
    exact hm ha

/-- A fold of upserts preserves key-dedupedness. -/
theorem nodupKeys_foldl :
    ∀ (rs s : List VectorRecord), NodupKeys s → NodupKeys (rs.foldl upsert s) := by
  intro rs
  induction rs with
  | nil => intro s h; exact h
  | cons r rs ih => intro s h; exact ih (upsert s r) (nodupKeys_upsert s r h)

/-- A member of a duplicate-free list is counted exactly once. -/
theorem count_eq_one_of_nodup {l : List (List String)} {k : List String}
    (hnd : l.Nodup) (hm : k ∈ l) : l.count k = 1 := by
  induction l with
  | nil => cases hm
  | cons a l ih =>
    rcases List.mem_cons.mp hm with h | h
    · subst h
      rw [List.count_cons_self]
      have hz : l.count k = 0 := by
        rw [List.count_eq_zero]
        exact (List.nodup_cons.mp hnd).1
      rw [hz]
    · have hne : k ≠ a := by
        rintro rfl
        exact (List.nodup_cons.mp hnd).1 h
      rw [List.count_cons_of_ne hne]
      exact ih (List.nodup_cons.mp hnd).2 h

/-- In a key-deduplicated store a present key is carried by exactly one
record. -/
theorem countKey_eq_one (s : List VectorRecord) (k : List String)
    (hnd : NodupKeys s) (hm : k ∈ keysOf s) : countKey s k = 1 :=
  count_eq_one_of_nodup hnd hm

/-- Two replacements under the same key collapse to the later one. -/
theorem replaceRec_replaceRec_same {r r' : VectorRecord}
    (h : r'.dedup_key = r.dedup_key) (x : VectorRecord) :
    replaceRec r (replaceRec r' x) = replaceRec r x := by
  by_cases hx : x.dedup_key = r'.dedup_key
  · have hxr : x.dedup_key = r.dedup_key := hx.trans h
    simp [replaceRec, hx, h, hxr]
  · have hxr : ¬x.dedup_key = r.dedup_key := fun hc => hx (hc.trans h.symm)
    simp [replaceRec, hx, hxr]

/-- Replacements under distinct keys commute pointwise. -/
theorem replaceRec_comm {r y : VectorRecord} (h : y.dedup_key ≠ r.dedup_key)
    (x : VectorRecord) :
    replaceRec y (replaceRec r x) = replaceRec r (replaceRec y x) := by
  have hry : ¬r.dedup_key = y.dedup_key := fun hc => h hc.symm
  by_cases hr : x.dedup_key = r.dedup_key
  · have hy : ¬x.dedup_key = y.dedup_key := fun hc => h (hc.symm.trans hr)
    simp [replaceRec, hr, hy, hry]
  · by_cases hy : x.dedup_key = y.dedup_key
    · simp [replaceRec, hr, hy, h]
    · simp [replaceRec, hr, hy]

/-- Replacing an absent key does nothing. -/
theorem map_replaceRec_of_not_mem {s : List VectorRecord} {r : VectorRecord}
    (h : r.dedup_key ∉ keysOf s) : s.map (replaceRec r) = s := by
  have hpt : ∀ x ∈ s, replaceRec r x = x := by
    intro x hx
    unfold replaceRec
    rw [if_neg]
    intro hc
    exact h (hc ▸ List.mem_map_of_mem (fun z => z.dedup_key) hx)
  calc s.map (replaceRec r) = s.map id := List.map_congr_left (fun x hx => hpt x hx)
    _ = s := List.map_id s

/-- Upserts under the same key collapse to the later one. -/
theorem upsert_upsert_same_key {r y : VectorRecord}
    (h : y.dedup_key = r.dedup_key) (s : List VectorRecord) :
    upsert (upsert s r) y = upsert s y := by
  by_cases hm : r.dedup_key ∈ keysOf s
  · have hy : y.dedup_key ∈ keysOf s := h ▸ hm
    have e1 : upsert s r = s.map (replaceRec r) := by rw [upsert, if_pos hm]
    have e2 : upsert s y = s.map (replaceRec y) := by rw [upsert, if_pos hy]
    have hy2 : y.dedup_key ∈ keysOf (s.map (replaceRec r)) := by
      rw [keysOf_map_replace]; exact hy
    rw [e1, e2, upsert, if_pos hy2, List.map_map]
    exact List.map_congr_left (fun x _ => replaceRec_replaceRec_same h.symm x)
  · have hy : y.dedup_key ∉ keysOf s := h ▸ hm
    have e1 : upsert s r = s ++ [r] := by rw [upsert, if_neg hm]
    have e2 : upsert s y = s ++ [y] := by rw [upsert, if_neg hy]
    have hy2 : y.dedup_key ∈ keysOf (s ++ [r]) := by
      rw [keysOf, List.map_append]
      exact List.mem_append_right _ (by simp [h])
    rw [e1, e2, upsert, if_pos hy2, List.map_append, map_replaceRec_of_not_mem hy]
    simp [replaceRec, h]

/-- An upsert under a present key commutes past an upsert under a distinct
key. -/
theorem upsert_upsert_comm_of_mem (s : List VectorRecord) {r y : VectorRecord}
    (hm : r.dedup_key ∈ keysOf s) (hne : y.dedup_key ≠ r.dedup_key) :
    upsert (upsert s r) y = upsert (upsert s y) r := by
  have e1 : upsert s r = s.map (replaceRec r) := by rw [upsert, if_pos hm]
  by_cases hy : y.dedup_key ∈ keysOf s
  · have e2 : upsert s y = s.map (replaceRec y) := by rw [upsert, if_pos hy]
    have hy1 : y.dedup_key ∈ keysOf (s.map (replaceRec r)) := by
      rw [keysOf_map_replace]; exact hy
    have hm2 : r.dedup_key ∈ keysOf (s.map (replaceRec y)) := by
      rw [keysOf_map_replace]; exact hm
    rw [e1, e2, upsert, if_pos hy1, upsert, if_pos hm2, List.map_map, List.map_map]
    exact List.map_congr_left (fun x _ => replaceRec_comm hne x)
  · have e2 : upsert s y = s ++ [y] := by rw [upsert, if_neg hy]
    have hy1 : y.dedup_key ∉ keysOf (s.map (replaceRec r)) := by
      rw [keysOf_map_replace]; exact hy
    have hm2 : r.dedup_key ∈ keysOf (s ++ [y]) := by
      rw [keysOf, List.map_append]
      exact List.mem_append_left _ hm
    rw [e1, e2, upsert, if_neg hy1, upsert, if_pos hm2, List.map_append]
    congr 1
    simp [replaceRec, hne]

/-- After an upsert the store pins the upserted record. -/
theorem pins_upsert_self (s : List VectorRecord) (r : VectorRecord) :
    Pins (upsert s r) r := by
  constructor
  · exact mem_keys_upsert_self s r
  · intro z hz hzk
    by_cases hm : r.dedup_key ∈ keysOf s
    · rw [upsert, if_pos hm] at hz
      obtain ⟨x, hx, hxz⟩ := List.mem_map.mp hz
      have hxk : x.dedup_key = r.dedup_key := by
        rw [← keys_replaceRec r x, hxz]; exact hzk
      rw [← hxz]
      simp [replaceRec, hxk]
    · rw [upsert, if_neg hm] at hz
      rcases List.mem_append.mp hz with hz | hz
      · exact absurd (hzk ▸ List.mem_map_of_mem (fun z => z.dedup_key) hz) hm
      · exact List.mem_singleton.mp hz

/-- Pinning survives an upsert under a distinct key. -/
theorem pins_upsert_other {y r : VectorRecord} (hne : y.dedup_key ≠ r.dedup_key)
    {s : List VectorRecord} (hp : Pins s r) : Pins (upsert s y) r := by
  constructor
  · exact mem_keys_upsert_mono s y hp.1
  · intro z hz hzk
    by_cases hm : y.dedup_key ∈ keysOf s
    · rw [upsert, if_pos hm] at hz
      obtain ⟨x, hx, hxz⟩ := List.mem_map.mp hz
      have hxk : x.dedup_key = r.dedup_key := by
        rw [← keys_replaceRec y x, hxz]; exact hzk
      have hxy : ¬x.dedup_key = y.dedup_key := fun hc => hne (hc.symm.trans hxk)
      rw [← hxz]
      unfold replaceRec
      rw [if_neg hxy]
      exact hp.2 x hx hxk
    · rw [upsert, if_neg hm] at hz
      rcases List.mem_append.mp hz with hz | hz
      · exact hp.2 z hz hzk
      · exact absurd ((List.mem_singleton.mp hz) ▸ hzk) hne

/-- Upserting a pinned record is the identity. -/
theorem upsert_of_pins {s : List VectorRecord} {r : VectorRecord}
    (hp : Pins s r) : upsert s r = s := by
  rw [upsert, if_pos hp.1]
  have hpt : ∀ x ∈ s, replaceRec r x = x := by
    intro x hx
    unfold replaceRec
    by_cases h : x.dedup_key = r.dedup_key
    · rw [if_pos h]
      exact (hp.2 x hx h).symm
    · rw [if_neg h]
  calc s.map (replaceRec r) = s.map id := List.map_congr_left (fun x hx => hpt x hx)
    _ = s := List.map_id s

/-- Pinning survives a fold of upserts under distinct keys. -/
theorem pins_foldl :
    ∀ (rs : List VectorRecord) {s : List VectorRecord} {r : VectorRecord},
      (∀ x ∈ rs, x.dedup_key ≠ r.dedup_key) → Pins s r → Pins (rs.foldl upsert s) r := by
  intro rs
  induction rs with
  | nil => intro s r _ hp; exact hp
  | cons y ys ih =>
    intro s r h hp
    exact ih (fun x hx => h x (List.mem_cons_of_mem y hx))
      (pins_upsert_other (h y (List.mem_cons_self y ys)) hp)

/-- An upsert under a present key that is upserted again later in the fold
is absorbed by the fold. -/
theorem foldl_upsert_absorb :
    ∀ (rs t : List VectorRecord) {r : VectorRecord},
      r.dedup_key ∈ keysOf t → (∃ x ∈ rs, x.dedup_key = r.dedup_key) →
      rs.foldl upsert (upsert t r) = rs.foldl upsert t := by
  intro rs
  induction rs with
  | nil =>
    intro t r _ hex
    exact absurd hex (by simp)
  | cons y ys ih =>
    intro t r hm hex
    by_cases hy : y.dedup_key = r.dedup_key
    · show ys.foldl upsert (upsert (upsert t r) y) = ys.foldl upsert (upsert t y)
      rw [upsert_upsert_same_key hy t]
    · obtain ⟨x, hx, hxk⟩ := hex
      have hx' : x ∈ ys := by
        rcases List.mem_cons.mp hx with h | h
        · exact absurd (h ▸ hxk) hy
        · exact h
      show ys.foldl upsert (upsert (upsert t r) y) = ys.foldl upsert (upsert t y)
      rw [upsert_upsert_comm_of_mem t hm hy]
      exact ih (upsert t y) (mem_keys_upsert_mono t y hm) ⟨x, hx', hxk⟩

/-- Replaying the same upsert sequence over its own result changes
nothing: the fold of upserts is idempotent. -/
theorem foldl_upsert_idem :
    ∀ (rs s : List VectorRecord),
      rs.foldl upsert (rs.foldl upsert s) = rs.foldl upsert s := by
  intro rs
  induction rs with
  | nil => intro s; rfl
  | cons r rs ih =>
    intro s
    show rs.foldl upsert (upsert (rs.foldl upsert (upsert s r)) r) =
      rs.foldl upsert (upsert s r)
    by_cases hex : ∃ x ∈ rs, x.dedup_key = r.dedup_key
    · have hm : r.dedup_key ∈ keysOf (rs.foldl upsert (upsert s r)) :=
        mem_keys_foldl_mono rs (upsert s r) (mem_keys_upsert_self s r)
      rw [foldl_upsert_absorb rs _ hm hex]
      exact ih (upsert s r)
    · push_neg at hex
      have hp : Pins (rs.foldl upsert (upsert s r)) r :=
        pins_foldl rs hex (pins_upsert_self s r)
      rw [upsert_of_pins hp]
      exact ih (upsert s r)

/-- Every record of an upserted store is an old record or the new one. -/
theorem mem_upsert {s : List VectorRecord} {r z : VectorRecord}
    (hz : z ∈ upsert s r) : z ∈ s ∨ z = r := by
  unfold upsert at hz
  split at hz
  · obtain ⟨x, hx, hxz⟩ := List.mem_map.mp hz
    unfold replaceRec at hxz
    split at hxz
    · right; exact hxz.symm
    · left; exact hxz ▸ hx
  · rcases List.mem_append.mp hz with h | h
    · left; exact h
    · right; exact List.mem_singleton.mp h

/-- Every record after a fold of upserts is an old record or one of the
upserted ones. -/
theorem mem_foldl_upsert :
    ∀ (rs s : List VectorRecord) {z : VectorRecord},
      z ∈ rs.foldl upsert s → z ∈ s ∨ z ∈ rs := by
  intro rs
  induction rs with
  | nil => intro s z h; left; exact h
  | cons r rs ih =>
    intro s z h
    rcases ih (upsert s r) h with h' | h'
    · rcases mem_upsert h' with h'' | h''
      · left; exact h''
      · right; exact List.mem_cons.mpr (Or.inl h'')
    · right; exact List.mem_cons_of_mem r h'

/-- A successful `add_texts` call is exactly: embedding succeeded, every
vector passed the dimension check, and the result is the fold of keyed
upserts over the unchanged configuration. -/
theorem add_texts_ok_iff (idx : Index) (router : EmbeddingRouter)
    (docs : List Document) (idx' : Index) :
    idx.add_texts router docs = .ok idx' ↔
    ∃ vecs,
      router.generate_embeddings ((idx.fragmentsOf docs).map (fun f => f.1))
          idx.config.embedding_model = .ok vecs ∧
      vecs.all (fun v => v.length = idx.config.vector_dim) = true ∧
      idx' = { idx with
        records := (((idx.fragmentsOf docs).zip vecs).map idx.recordOf).foldl
          upsert idx.records } := by
  constructor
  · intro h
    unfold Index.add_texts at h
    split at h
    · cases h
    · next vecs hemb =>
      split at h
      · next hall =>
        injection h with h'
        exact ⟨vecs, hemb, hall, h'.symm⟩
      · cases h
  · rintro ⟨vecs, hemb, hall, rfl⟩
    unfold Index.add_texts
    rw [hemb]
    simp [hall]

/-- A successful embedding batch returns one vector per input text. -/
theorem generate_embeddings_length {router : EmbeddingRouter}
    {texts : List String} {name : String} {vs : List (List ℚ)}
    (h : router.generate_embeddings texts name = .ok vs) :
    vs.length = texts.length := by
  unfold EmbeddingRouter.generate_embeddings at h
  split at h
  · cases h
  · split at h
    · cases h
    · injection h with h'
      rw [← h']
      exact List.length_map _ _

/-- C1: re-submitting the same documents is idempotent — a second
`add_texts` call over its own result returns the very same index, the
store stays key-deduplicated, and every fragment's dedup key is held by
exactly one `VectorRecord`: upserting an existing key replaces rather than
duplicates. -/
theorem add_texts_idempotent_per_dedup_key (router : EmbeddingRouter)
    (idx idx' : Index) (docs : List Document)
    (hnd : NodupKeys idx.records)
    (h : idx.add_texts router docs = .ok idx') :
    idx'.add_texts router docs = .ok idx' ∧
    NodupKeys idx'.records ∧
    ∀ fm ∈ idx.fragmentsOf docs,
      countKey idx'.records (dedupKey idx.config.unique_params fm.2 fm.1) = 1 := by
  obtain ⟨vecs, hemb, hall, hidx⟩ := (add_texts_ok_iff idx router docs idx').mp h
  subst hidx
  have hlen : (idx.fragmentsOf docs).length ≤ vecs.length := by
    have hv := generate_embeddings_length hemb
    rw [hv, List.length_map]
  have hkeys : keysOf (((idx.fragmentsOf docs).zip vecs).map idx.recordOf) =
      (idx.fragmentsOf docs).map
        (fun fm => dedupKey idx.config.unique_params fm.2 fm.1) := by
    unfold keysOf
    rw [List.map_map]
    conv_rhs => rw [← List.map_fst_zip (idx.fragmentsOf docs) vecs hlen, List.map_map]
    rfl
  refine ⟨?_, ?_, ?_⟩
  · apply (add_texts_ok_iff _ router docs _).mpr
    refine ⟨vecs, hemb, hall, ?_⟩
    show ({ idx with
        records := (((idx.fragmentsOf docs).zip vecs).map idx.recordOf).foldl
          upsert idx.records } : Index) =
      { idx with
        records := (((idx.fragmentsOf docs).zip vecs).map idx.recordOf).foldl upsert
          ((((idx.fragmentsOf docs).zip vecs).map idx.recordOf).foldl upsert idx.records) }
    rw [foldl_upsert_idem]
  · exact nodupKeys_foldl _ idx.records hnd
  · intro fm hfm
    have hk : dedupKey idx.config.unique_params fm.2 fm.1 ∈
        keysOf (((idx.fragmentsOf docs).zip vecs).map idx.recordOf) := by
      rw [hkeys]
      exact List.mem_map_of_mem _ hfm
    obtain ⟨r, hr, hrk⟩ := List.mem_map.mp hk
    rw [← hrk]
    exact countKey_eq_one _ _ (nodupKeys_foldl _ idx.records hnd)
      (mem_keys_foldl_of_mem _ idx.records hr)

/-- Witness for C1: ingesting the demo document twice leaves exactly the
one record of its fragment. -/
theorem add_texts_idempotent_witness :
    NodupKeys demoIndex.records ∧
    demoIndex.add_texts demoRouter demoDocs = .ok demoIndexAfter ∧
    (demoIndexAfter.add_texts demoRouter demoDocs = .ok demoIndexAfter ∧
     NodupKeys demoIndexAfter.records ∧
     ∀ fm ∈ demoIndex.fragmentsOf demoDocs,
       countKey demoIndexAfter.records
         (dedupKey demoIndex.config.unique_params fm.2 fm.1) = 1) :=
  ⟨by decide, by rfl,
    add_texts_idempotent_per_dedup_key demoRouter demoIndex demoIndexAfter demoDocs
      (by decide) (by rfl)⟩

/-- C8: the text splitter is a pure function of text and strategy —
`NewLine` on `"a\n\nb\n"` yields exactly `["a", "b"]` (empty lines dropped,
document order kept); `Regex` with pattern `","` on `"a,b,c"` yields
`["a", "b", "c"]` with the boundary not included; the `None` strategy
yields exactly one fragment equal to the input, for every input text. -/
theorem splitText_spec :
    splitText .newLine "a\n\nb\n" = ["a", "b"] ∧
    splitText (.regex ",") "a,b,c" = ["a", "b", "c"] ∧
    ∀ t : String, splitText .noSplit t = [t] :=
  ⟨by decide, by decide, fun _ => rfl⟩

/-- C10: with no `IndexManager` configured, the create, add and search
handlers each answer 400 with exactly
`["server is not configured to have indexes"]`, and no index operation is
attempted — create and add return the unchanged (absent) manager state. -/
theorem unconfigured_server_rejects_all (router : EmbeddingRouter)
    (p₁ : IndexCreateRequest) (p₂ : AddTextsRequest) (p₃ : SearchRequest) :
    index_create (none, router) p₁ =
      ((400, { errors := ["server is not configured to have indexes"] }), none) ∧
    add_texts (none, router) p₂ =
      ((400, { errors := ["server is not configured to have indexes"] }), none) ∧
    index_search (none, router) p₃ =
      (400, { results := [], errors := ["server is not configured to have indexes"] }) :=
  ⟨rfl, rfl, rfl⟩

/-- C7: `generate_embeddings` is all-or-nothing, and the embedding-utility
handler mirrors that — either the configured model's backend is healthy and
the response is 200 carrying exactly one vector per input text in input
order with no error, or the call fails and the response is 417 carrying an
error and no embeddings at all. -/
theorem generate_embedding_all_or_nothing (router : EmbeddingRouter)
    (inputs : List String) (model : String) :
    (∃ p, router.models.find? (fun q => q.1 = model) = some p ∧ p.2.2.fail = none ∧
      generate_embedding router { inputs := inputs, model := model } =
        (200, { embeddings := some (inputs.map p.2.2.embed), error := none }) ∧
      (inputs.map p.2.2.embed).length = inputs.length) ∨
    (∃ e, generate_embedding router { inputs := inputs, model := model } =
        (417, { embeddings := none, error := some e })) := by
  cases hfind : router.models.find? (fun q => q.1 = model) with
  | none =>
    right
    exact ⟨"UnknownModel", by simp [generate_embedding, EmbeddingRouter.generate_embeddings, hfind]⟩
  | some p =>
    cases hfail : p.2.2.fail with
    | some msg =>
      right
      refine ⟨"BackendError: " ++ msg, ?_⟩
      simp [generate_embedding, EmbeddingRouter.generate_embeddings, hfind, hfail]
    | none =>
      left
      refine ⟨p, ?_, ?_, ?_, ?_⟩
      · rfl
      · exact hfail
      · simp [generate_embedding, EmbeddingRouter.generate_embeddings, hfind, hfail]
      · simp

/-- C4: creating an index over an unconfigured embedding model fails with
`UnknownModel` before any write — the handler answers 400 carrying the
error and returns the manager unchanged. -/
theorem create_unknown_model_no_write (mgr : IndexManager)
    (router : EmbeddingRouter) (p : IndexCreateRequest)
    (h : p.embedding_model ∉ router.list_models) :
    index_create (some mgr, router) p =
      ((400, { errors := ["UnknownModel"] }), some mgr) := by
  have hfind : router.models.find? (fun q => q.1 = p.embedding_model) = none := by
    rw [List.find?_eq_none]
    intro x hx hc
    exact h (List.mem_map.mpr ⟨x, hx, of_decide_eq_true hc⟩)
  simp [index_create, EmbeddingRouter.dimensions, hfind]

/-- Witness for C4 at a concrete unconfigured model name. -/
theorem create_unknown_model_witness :
    "does-not-exist" ∉ demoRouter.list_models ∧
    index_create (some demoManager, demoRouter)
        { name := "n", embedding_model := "does-not-exist", metric := .Dot
          text_splitter := .noSplit, hash_on := none } =
      ((400, { errors := ["UnknownModel"] }), some demoManager) :=
  ⟨by decide, create_unknown_model_no_write demoManager demoRouter _ (by decide)⟩

/-- C2 counterexample: on the add endpoint the status for an ingestion
failure after the index was found (400, carrying the failure message) is
the same status used when the index is not found (400), so the two cases
are not distinguished by status. -/
theorem add_status_not_distinct_cex :
    (add_texts (some demoManager, downRouter)
        { index := "docs", documents := [{ text := "t", metadata := [] }] }).1.1 = 400 ∧
    (add_texts (some demoManager, downRouter)
        { index := "docs", documents := [{ text := "t", metadata := [] }] }).1.2.errors =
      ["EmbeddingFailure: BackendError: backend down"] ∧
    (add_texts (some demoManager, downRouter)
        { index := "missing", documents := [] }).1.1 = 400 ∧
    (add_texts (some demoManager, downRouter)
        { index := "missing", documents := [] }).1.2.errors = ["index does not exist"] :=
  ⟨rfl, rfl, rfl, rfl⟩

/-- C2 (amended): both endpoints answer a missing index with 400 and
"index does not exist"; on search an execution failure is answered with the
distinct status 500, while on add an ingestion failure is answered with the
same status 400 and is distinguished from not-found only by the error
message. -/
theorem notfound_vs_failure_statuses
    (mgr : IndexManager) (router : EmbeddingRouter)
    (p₁ p₂ : AddTextsRequest) (q₁ q₂ : SearchRequest)
    (idxA idxS : Index) (eA eS : String)
    (h1 : mgr.load p₁.index = none)
    (h2 : mgr.load p₂.index = some idxA)
    (h3 : idxA.add_texts router p₂.documents = .error eA)
    (h4 : mgr.load q₁.index = none)
    (h5 : mgr.load q₂.index = some idxS)
    (h6 : idxS.search router q₂.query q₂.k = .error eS) :
    add_texts (some mgr, router) p₁ =
      ((400, { errors := ["index does not exist"] }), some mgr) ∧
    add_texts (some mgr, router) p₂ = ((400, { errors := [eA] }), some mgr) ∧
    index_search (some mgr, router) q₁ =
      (400, { results := [], errors := ["index does not exist"] }) ∧
    index_search (some mgr, router) q₂ = (500, { results := [], errors := [eS] }) := by
  refine ⟨?_, ?_, ?_, ?_⟩
  · simp [add_texts, h1]
  · simp [add_texts, h2, h3]
  · simp [index_search, h4]
  · simp [index_search, h5, h6]

/-- Witness for the amended C2 at concrete requests against the failing
backend. -/
theorem notfound_vs_failure_witness :
    demoManager.load "missing" = none ∧
    demoManager.load "docs" = some demoIndex ∧
    demoIndex.add_texts downRouter [{ text := "t", metadata := [] }] =
      .error "EmbeddingFailure: BackendError: backend down" ∧
    demoIndex.search downRouter "q" 1 =
      .error "EmbeddingFailure: BackendError: backend down" ∧
    add_texts (some demoManager, downRouter) { index := "missing", documents := [] } =
      ((400, { errors := ["index does not exist"] }), some demoManager) ∧
    index_search (some demoManager, downRouter) { index := "docs", query := "q", k := 1 } =
      (500, { results := [], errors := ["EmbeddingFailure: BackendError: backend down"] }) := by
  refine ⟨rfl, rfl, rfl, rfl, ?_, ?_⟩
  · exact (notfound_vs_failure_statuses demoManager downRouter
      { index := "missing", documents := [] }
      { index := "docs", documents := [{ text := "t", metadata := [] }] }
      { index := "missing", query := "q", k := 1 }
      { index := "docs", query := "q", k := 1 }
      demoIndex demoIndex
      "EmbeddingFailure: BackendError: backend down"
      "EmbeddingFailure: BackendError: backend down"
      rfl rfl rfl rfl rfl rfl).1
  · exact (notfound_vs_failure_statuses demoManager downRouter
      { index := "missing", documents := [] }
      { index := "docs", documents := [{ text := "t", metadata := [] }] }
      { index := "missing", query := "q", k := 1 }
      { index := "docs", query := "q", k := 1 }
      demoIndex demoIndex
      "EmbeddingFailure: BackendError: backend down"
      "EmbeddingFailure: BackendError: backend down"
      rfl rfl rfl rfl rfl rfl).2.2.2

/-- The catalog handler's accumulator loop is an append of a filterMap. -/
theorem list_models_foldl_eq (dims : String → Except String Nat) :
    ∀ (names : List String) (acc : List EmbeddingModel),
      names.foldl
        (fun acc m =>
          match dims m with
          | .ok d => acc ++ [{ name := m, dimensions := d }]
          | .error _ => acc) acc =
      acc ++ names.filterMap
        (fun m =>
          match dims m with
          | .ok d => some { name := m, dimensions := d }
          | .error _ => none) := by
  intro names
  induction names with
  | nil => intro acc; simp
  | cons m ms ih =>
    intro acc
    cases hd : dims m with
    | ok d => simp [List.foldl_cons, List.filterMap_cons, hd, ih]
    | error e => simp [List.foldl_cons, List.filterMap_cons, hd, ih]

/-- When every listed model's dimensions lookup succeeds, the catalog holds
exactly one entry per listed model, in order, each carrying its looked-up
dimensionality. -/
theorem catalog_of_ok (dims : String → Except String Nat) :
    ∀ names : List String, (∀ m ∈ names, ∃ d, dims m = .ok d) →
      ((list_embedding_models names dims).models.map (fun e => e.name) = names) ∧
      ∀ e ∈ (list_embedding_models names dims).models, dims e.name = .ok e.dimensions := by
  intro names
  induction names with
  | nil => intro _; simp [list_embedding_models]
  | cons m ms ih =>
    intro h
    obtain ⟨d, hd⟩ := h m (List.mem_cons_self m ms)
    have ihall := ih (fun x hx => h x (List.mem_cons_of_mem m hx))
    have hunf : (list_embedding_models (m :: ms) dims).models =
        { name := m, dimensions := d } :: (list_embedding_models ms dims).models := by
      simp [list_embedding_models, list_models_foldl_eq, List.filterMap_cons, hd]
    constructor
    · simp [hunf, ihall.1]
    · intro e he
      rw [hunf] at he
      rcases List.mem_cons.mp he with he | he
      · subst he; exact hd
      · exact ihall.2 e he

/-- Every configured model's dimensions lookup succeeds. -/
theorem dimensions_ok_of_listed (router : EmbeddingRouter) :
    ∀ m ∈ router.list_models, ∃ d, router.dimensions m = .ok d := by
  intro m hm
  obtain ⟨p, hp, hpm⟩ := List.mem_map.mp hm
  have hsome : (router.models.find? (fun q => decide (q.1 = m))).isSome := by
    rw [List.find?_isSome]
    exact ⟨p, hp, by simp [hpm]⟩
  obtain ⟨q, hq⟩ := Option.isSome_iff_exists.mp hsome
  exact ⟨q.2.1, by simp [EmbeddingRouter.dimensions, hq]⟩

/-- C6 counterexample: a listed model whose dimensions lookup fails is
silently dropped from the catalog — the response holds no entry for it and
carries no error channel at all, so the failure is swallowed. -/
theorem list_models_swallows_lookup_failure_cex :
    (list_embedding_models ["model-a"]
      (fun _ => .error "dimensions lookup failed")).models = [] := rfl

/-- C6 (amended): the catalog holds one entry per model whose dimensions
lookup succeeds; since the router's lookup succeeds for every configured
model, the response lists every configured model in configuration order
with its dimensionality — but the handler drops, rather than surfaces, any
failing lookup (the response has no error channel). -/
theorem list_models_catalog_complete (router : EmbeddingRouter) :
    ((list_embedding_models router.list_models router.dimensions).models.map
        (fun e => e.name) = router.list_models) ∧
    ∀ e ∈ (list_embedding_models router.list_models router.dimensions).models,
      router.dimensions e.name = .ok e.dimensions :=
  catalog_of_ok router.dimensions router.list_models (dimensions_ok_of_listed router)

/-- C9: under the atomic check-then-insert, of two same-name creations run
in either serialization order exactly one succeeds and commits; the other
fails with `IndexAlreadyExists` and commits nothing, leaving exactly one
index record of that name. -/
theorem create_index_race_one_winner (mgr : IndexManager) (c₁ c₂ : IndexConfig)
    (hname : c₂.name = c₁.name) (hfree : mgr.load c₁.name = none) :
    ∃ mgr', mgr.create_index c₁ = .ok mgr' ∧
      mgr'.create_index c₂ = .error "IndexAlreadyExists" ∧
      (mgr'.indexes.filter (fun i => i.config.name = c₁.name)).length = 1 := by
  have hnone : mgr.indexes.find? (fun i => decide (i.config.name = c₁.name)) = none := hfree
  refine ⟨{ indexes := mgr.indexes ++ [{ config := c₁, records := [] }] }, ?_, ?_, ?_⟩
  · simp [IndexManager.create_index, IndexManager.load, hnone]
  · have hfound : IndexManager.load
        { indexes := mgr.indexes ++ [{ config := c₁, records := [] }] } c₂.name =
        some { config := c₁, records := [] } := by
      simp [IndexManager.load, List.find?_append, hname, hnone]
    simp [IndexManager.create_index, hfound]
  · have hnil : mgr.indexes.filter (fun i => decide (i.config.name = c₁.name)) = [] := by
      rw [List.filter_eq_nil_iff]
      intro x hx
      have := List.find?_eq_none.mp hnone x hx
      simpa using this
    simp [List.filter_append, hnil]

/-- C3: a successful creation records exactly the dimensionality the
router declares for the chosen model at creation time, starting from an
empty store; and ingestion preserves the invariant that every stored
vector's length equals the recorded `vector_dim` (the configuration never
changes). -/
theorem vector_dim_matches_model_and_store :
    (∀ (mgr : IndexManager) (router : EmbeddingRouter) (p : IndexCreateRequest)
        (mgr' : IndexManager) (resp : IndexCreateResponse),
      index_create (some mgr, router) p = ((200, resp), some mgr') →
      ∃ idx, mgr'.load p.name = some idx ∧
        router.dimensions p.embedding_model = .ok idx.config.vector_dim ∧
        idx.records = []) ∧
    (∀ (router : EmbeddingRouter) (idx idx' : Index) (docs : List Document),
      (∀ rec ∈ idx.records, rec.vector.length = idx.config.vector_dim) →
      idx.add_texts router docs = .ok idx' →
      idx'.config = idx.config ∧
      ∀ rec ∈ idx'.records, rec.vector.length = idx'.config.vector_dim) := by
  constructor
  · intro mgr router p mgr' resp h
    cases hdim : router.dimensions p.embedding_model with
    | error e => simp [index_create, hdim] at h
    | ok dim =>
      cases hcre : mgr.create_index
          { name := p.name, vector_dim := dim, metric := p.metric,
            embedding_model := p.embedding_model, splitter := p.text_splitter,
            unique_params := p.hash_on } with
      | error e => simp [index_create, hdim, hcre] at h
      | ok mgr'' =>
        have hres : mgr'' = mgr' := by
          have h2 := congrArg Prod.snd h
          simp [index_create, hdim, hcre] at h2
          exact h2
        unfold IndexManager.create_index at hcre
        split at hcre
        · cases hcre
        · next hfree =>
          injection hcre with hc'
          refine ⟨⟨⟨p.name, dim, p.metric, p.embedding_model, p.text_splitter, p.hash_on⟩, []⟩,
            ?_, rfl, rfl⟩
          have hnone : mgr.indexes.find? (fun i => decide (i.config.name = p.name)) = none :=
            Option.not_isSome_iff_eq_none.mp hfree
          rw [← hres, ← hc']
          simp [IndexManager.load, List.find?_append, hnone]
  · intro router idx idx' docs hinv h
    obtain ⟨vecs, hemb, hall, rfl⟩ := (add_texts_ok_iff idx router docs idx').mp h
    refine ⟨rfl, ?_⟩
    intro rec hrec
    rcases mem_foldl_upsert _ idx.records hrec with h' | h'
    · exact hinv rec h'
    · obtain ⟨fv, hfv, hfveq⟩ := List.mem_map.mp h'
      have hv2 : fv.2 ∈ vecs := (List.of_mem_zip hfv).2
      have hlenv := List.all_eq_true.mp hall _ hv2
      rw [← hfveq]
      exact of_decide_eq_true hlenv

/-- Witness for C3 at the demo configuration: one creation and one
ingestion. -/
theorem vector_dim_witness :
    index_create (some emptyManager, demoRouter) demoCreateReq =
      ((200, { errors := [] }), some demoManager) ∧
    (∀ rec ∈ demoIndex.records, rec.vector.length = demoIndex.config.vector_dim) ∧
    demoIndex.add_texts demoRouter demoDocs = .ok demoIndexAfter ∧
    (∃ idx, demoManager.load demoCreateReq.name = some idx ∧
      demoRouter.dimensions demoCreateReq.embedding_model = .ok idx.config.vector_dim ∧
      idx.records = []) ∧
    (demoIndexAfter.config = demoIndex.config ∧
      ∀ rec ∈ demoIndexAfter.records,
        rec.vector.length = demoIndexAfter.config.vector_dim) := by
  refine ⟨rfl, by decide, rfl, ?_, ?_⟩
  · exact vector_dim_matches_model_and_store.1 emptyManager demoRouter demoCreateReq
      demoManager { errors := [] } rfl
  · exact vector_dim_matches_model_and_store.2 demoRouter demoIndex demoIndexAfter
      demoDocs (by decide) rfl

/-- Ranking at least as well is a total relation. -/
theorem rankLE_total (m : MetricKind) (qv : List ℚ) (a b : VectorRecord) :
    rankLE m qv a b ∨ rankLE m qv b a := by
  cases m
  · exact le_total _ _
  · exact le_total _ _
  · exact le_total _ _

/-- Ranking at least as well is transitive. -/
theorem rankLE_trans (m : MetricKind) (qv : List ℚ) {a b c : VectorRecord}
    (hab : rankLE m qv a b) (hbc : rankLE m qv b c) : rankLE m qv a c := by
  cases m
  · exact le_trans hbc hab
  · exact le_trans hbc hab
  · exact le_trans hab hbc

/-- C5: for `k ≥ 1`, as long as the query embeds, `search` succeeds and
returns at most `k` hits, ordered best-match-first for the index's metric
(`rankLE`: ascending squared distance for euclidean — the same order as
ascending distance — and descending score for dot and cosine), and when
the store holds fewer than `k` records it returns exactly all of them,
with no error for that reason. -/
theorem search_topk_ranked (router : EmbeddingRouter) (idx : Index)
    (q : String) (k : Nat) (vs : List (List ℚ)) (_hk : 1 ≤ k)
    (hemb : router.generate_embeddings [q] idx.config.embedding_model = .ok vs) :
    ∃ res, idx.search router q k = .ok res ∧
      res.length ≤ k ∧
      res.Pairwise (rankLE idx.config.metric (vs.headD [])) ∧
      (idx.records.length < k → res.length = idx.records.length) := by
  refine ⟨(idx.records.insertionSort (rankLE idx.config.metric (vs.headD []))).take k,
    ?_, ?_, ?_, ?_⟩
  · unfold Index.search
    rw [hemb]
  · rw [List.length_take]
    exact min_le_left _ _
  · haveI : IsTotal VectorRecord (rankLE idx.config.metric (vs.headD [])) :=
      ⟨rankLE_total _ _⟩
    haveI : IsTrans VectorRecord (rankLE idx.config.metric (vs.headD [])) :=
      ⟨fun _ _ _ => rankLE_trans _ _⟩
    exact List.Pairwise.sublist (List.take_sublist k _)
      (List.sorted_insertionSort (rankLE idx.config.metric (vs.headD [])) idx.records)
  · intro hlt
    rw [List.length_take, List.length_insertionSort]
    exact min_eq_right (le_of_lt hlt)

/-- Witness for C5: searching the one-record demo index with `k = 2`. -/
theorem search_topk_witness :
    (1 : Nat) ≤ 2 ∧
    demoRouter.generate_embeddings ["hello"] demoIndexAfter.config.embedding_model =
      .ok [[1]] ∧
    ∃ res, demoIndexAfter.search demoRouter "hello" 2 = .ok res ∧
      res.length ≤ 2 ∧
      res.Pairwise (rankLE demoIndexAfter.config.metric ([[(1 : ℚ)]].headD [])) ∧
      (demoIndexAfter.records.length < 2 → res.length = demoIndexAfter.records.length) :=
  ⟨by decide, by rfl,
    search_topk_ranked demoRouter demoIndexAfter "hello" 2 [[1]] (by decide) (by rfl)⟩

/-- Witness for C9: two creations of the name `docs` against the empty
manager. -/
theorem create_index_race_witness :
    emptyManager.load "docs" = none ∧
    ∃ mgr', emptyManager.create_index demoConfig = .ok mgr' ∧
      mgr'.create_index demoConfig = .error "IndexAlreadyExists" ∧
      (mgr'.indexes.filter (fun i => i.config.name = demoConfig.name)).length = 1 :=
  ⟨rfl, create_index_race_one_winner emptyManager demoConfig demoConfig rfl rfl⟩

end Indexify

